import Mathlib

/-!
# Verification of `catpng`, a PNG scanline-concatenation tool

Shallow embedding of `src/main.rs`: the PNG chunk codec (framing, CRC-32,
IHDR layout) and the concatenation engine `catpng`.  Byte streams are
`List Nat` (each byte `< 256` where produced); machine integers are `Nat`
with explicit `% 2 ^ 32` / `% 256` where the Rust types truncate or wrap.
The external zlib implementation (`miniz_oxide`) is abstracted as a `Codec`
record; theorems that need the inflate/deflate round trip take it as the
`RoundTrip` hypothesis, and the trivial `idCodec` discharges it concretely.
-/

/-- Error type mirroring Rust `PngError`.  `io` collapses all
`std::io::Error` values (truncation etc.), `decompress` the
`miniz_oxide` decompression error. -/
inductive PngError where
  | io : PngError
  | decompress : PngError
  | invalidSignature : PngError
  | unsupportedTypeCode : List Nat → PngError
  | invalidIhdrLength : PngError
  | notIhdr : PngError
  | unequalWidth : PngError
deriving DecidableEq, Repr

instance {ε α : Type} [DecidableEq ε] [DecidableEq α] :
    DecidableEq (Except ε α) := fun a b =>
  match a, b with
  | .ok x, .ok y =>
    if h : x = y then .isTrue (by rw [h])
    else .isFalse (fun hc => h (Except.ok.inj hc))
  | .error x, .error y =>
    if h : x = y then .isTrue (by rw [h])
    else .isFalse (fun hc => h (Except.error.inj hc))
  | .ok _, .error _ => .isFalse (fun hc => Except.noConfusion hc)
  | .error _, .ok _ => .isFalse (fun hc => Except.noConfusion hc)

/-- Chunk kind: the closed enum `PngChunkKind` of the source. -/
inductive PngChunkKind where
  | ihdr : PngChunkKind
  | idat : PngChunkKind
  | iend : PngChunkKind
deriving DecidableEq, Repr

/-- The 4-byte ASCII type tags IHDR / IDAT / IEND (`impl From<PngChunkKind> for &[u8;4]`). -/
def typeCode : PngChunkKind → List Nat
  | .ihdr => [73, 72, 68, 82]
  | .idat => [73, 68, 65, 84]
  | .iend => [73, 69, 78, 68]

/-- `PngChunkKind::try_from(&[u8;4])`: only the three supported tags decode. -/
def kindOfCode (code : List Nat) : Option PngChunkKind :=
  if code = [73, 72, 68, 82] then some .ihdr
  else if code = [73, 68, 65, 84] then some .idat
  else if code = [73, 69, 78, 68] then some .iend
  else none

/-- A decoded chunk: `struct PngChunk { kind, data }`. -/
structure PngChunk where
  kind : PngChunkKind
  data : List Nat
deriving DecidableEq, Repr

/-- The 8-byte PNG magic `89 50 4E 47 0D 0A 1A 0A` (`PNG_SIGNATURE`). -/
def pngSignature : List Nat := [137, 80, 78, 71, 13, 10, 26, 10]

/-- Read a 4-byte big-endian u32 from the stream (`read_u32::<BigEndian>`);
fails (I/O error) when fewer than 4 bytes remain. -/
def readU32BE : List Nat → Option (Nat × List Nat)
  | b0 :: b1 :: b2 :: b3 :: rest =>
      some (b0 * 16777216 + b1 * 65536 + b2 * 256 + b3, rest)
  | _ => none

/-- Read exactly `n` bytes (`read_exact` / `read_exact_capacity`); fails when
fewer than `n` remain. -/
def readBytes (n : Nat) (s : List Nat) : Option (List Nat × List Nat) :=
  if n ≤ s.length then some (s.take n, s.drop n) else none

/-- `PngChunk::new`: read length, type tag, the IHDR length guard, `length`
payload bytes, then 4 CRC bytes that are consumed but never verified.
Returns the chunk and the unread remainder of the stream. -/
def pngChunkNew (s : List Nat) : Except PngError (PngChunk × List Nat) :=
  match readU32BE s with
  | none => .error .io
  | some (length, s1) =>
    match readBytes 4 s1 with
    | none => .error .io
    | some (code, s2) =>
      match kindOfCode code with
      | none => .error (.unsupportedTypeCode code)
      | some kind =>
        if kind = .ihdr ∧ length ≠ 13 then .error .invalidIhdrLength
        else
          match readBytes length s2 with
          | none => .error .io
          | some (data, s3) =>
            match readBytes 4 s3 with
            | none => .error .io
            | some (_, s4) => .ok (⟨kind, data⟩, s4)

/-- One bit step of reflected CRC-32 with polynomial `0xEDB88320`
(ISO-3309 / IEEE, as implemented by the `crc32fast` crate). -/
def crc32Step (c : Nat) : Nat :=
  if c % 2 = 1 then (c / 2) ^^^ 3988292384 else c / 2

/-- One byte of CRC-32: XOR the byte in, then 8 bit steps. -/
def crc32Byte (crc b : Nat) : Nat :=
  (List.range 8).foldl (fun c _ => crc32Step c) (crc ^^^ b)

/-- CRC-32 of a byte list: init `0xFFFFFFFF`, per-byte update, final
complement (`Hasher::new` / `update` / `finalize`). -/
def crc32 (bytes : List Nat) : Nat :=
  (bytes.foldl crc32Byte 4294967295) ^^^ 4294967295

/-- Big-endian 4-byte encoding of a u32 (`write_u32::<BigEndian>`); the
value is taken modulo `2 ^ 32`, mirroring the `as u32` cast. -/
def u32BE (n : Nat) : List Nat :=
  [n / 16777216 % 256, n / 65536 % 256, n / 256 % 256, n % 256]

/-- `PngChunk::write`: length (big-endian `data.len() as u32`), type tag,
payload, then big-endian CRC-32 over tag ++ payload. -/
def pngChunkWrite (c : PngChunk) : List Nat :=
  u32BE c.data.length ++ typeCode c.kind ++ c.data ++
    u32BE (crc32 (typeCode c.kind ++ c.data))

/-- `PngChunk::iend()`: the zero-length IEND chunk. -/
def pngIend : PngChunk := ⟨.iend, []⟩

/-- `struct IhdrData`, the decoded 13-byte IHDR payload.  Fields are
`Nat` models of `u32` / `u8`. -/
structure IhdrData where
  width : Nat
  height : Nat
  bit_depth : Nat
  color_type : Nat
  compression : Nat
  filter : Nat
  interlace : Nat
deriving DecidableEq, Repr

/-- Field bounds the Rust types impose (`width`, `height : u32`; the other
five fields `u8`). -/
def IhdrData.WF (v : IhdrData) : Prop :=
  v.width < 4294967296 ∧ v.height < 4294967296 ∧ v.bit_depth < 256 ∧
    v.color_type < 256 ∧ v.compression < 256 ∧ v.filter < 256 ∧
    v.interlace < 256

instance (v : IhdrData) : Decidable v.WF := by
  unfold IhdrData.WF; infer_instance

/-- `IhdrData::try_from(&PngChunk)`: reject non-IHDR chunks, then read
`width:u32, height:u32, bit_depth:u8, color_type:u8, compression:u8,
filter:u8, interlace:u8` big-endian from the payload; an I/O error results
when fewer than 13 payload bytes are available.  No field value is
validated. -/
def ihdrFromChunk (c : PngChunk) : Except PngError IhdrData :=
  if c.kind ≠ PngChunkKind.ihdr then .error .notIhdr
  else
    match readU32BE c.data with
    | none => .error .io
    | some (w, r1) =>
      match readU32BE r1 with
      | none => .error .io
      | some (h, r2) =>
        match r2 with
        | bd :: ct :: cp :: fl :: il :: _ => .ok ⟨w, h, bd, ct, cp, fl, il⟩
        | _ => .error .io

/-- `From<IhdrData> for PngChunk`: the mirror encode of the 13-byte IHDR
payload, field order preserved, integers big-endian, `u8` fields written
modulo 256. -/
def ihdrToChunk (v : IhdrData) : PngChunk :=
  ⟨.ihdr, u32BE v.width ++ u32BE v.height ++
    [v.bit_depth % 256, v.color_type % 256, v.compression % 256,
     v.filter % 256, v.interlace % 256]⟩

/-- Abstraction of the external zlib codec (`miniz_oxide`):
`compress buf level` models `compress_to_vec_zlib`, `inflate` models
`decompress_to_vec_zlib` (`none` = decompression error). -/
structure Codec where
  compress : List Nat → Nat → List Nat
  inflate : List Nat → Option (List Nat)

/-- The round-trip contract of a correct zlib implementation: inflating
the result of compressing any buffer at any level recovers the buffer. -/
def RoundTrip (c : Codec) : Prop :=
  ∀ b l, c.inflate (c.compress b l) = some b

/-- Trivial codec (identity compression): used to instantiate theorems on
concrete inputs. -/
def idCodec : Codec := ⟨fun b _ => b, fun b => some b⟩

theorem idCodec_roundTrip : RoundTrip idCodec := fun _ _ => rfl

/-- `saved.height += ihdr.height` with u32 wrapping semantics: the height
accumulation step of the fold. -/
def IhdrData.addHeight (s : IhdrData) (h : Nat) : IhdrData :=
  ⟨s.width, (s.height + h) % 4294967296, s.bit_depth, s.color_type,
    s.compression, s.filter, s.interlace⟩

/-- The `inflate_png` closure inside `catpng`: verify the 8-byte signature,
decode chunk 1 as IHDR, check width against the accumulator, decode chunk 2
and inflate its payload appending to the buffer, then seed or accumulate
the IHDR (height added with u32 wrapping). -/
def inflatePng (codec : Codec) (acc : Option IhdrData × List Nat)
    (png : List Nat) : Except PngError (Option IhdrData × List Nat) :=
  if png.take 8 = pngSignature then
    match pngChunkNew (png.drop 8) with
    | .error e => .error e
    | .ok (c1, r1) =>
      match ihdrFromChunk c1 with
      | .error e => .error e
      | .ok ihdr =>
        if acc.1.any (fun s => s.width != ihdr.width) then
          .error .unequalWidth
        else
          match pngChunkNew r1 with
          | .error e => .error e
          | .ok (c2, _) =>
            match codec.inflate c2.data with
            | none => .error .decompress
            | some bytes =>
              match acc.1 with
              | some s => .ok (some (s.addHeight ihdr.height), acc.2 ++ bytes)
              | none => .ok (some ihdr, acc.2 ++ bytes)
  else .error .invalidSignature

/-- The `try_fold` of `catpng` started from an arbitrary accumulator
(fail-fast on the first failing input). -/
def catpngFoldFrom (codec : Codec) (acc : Option IhdrData × List Nat) :
    List (List Nat) → Except PngError (Option IhdrData × List Nat)
  | [] => .ok acc
  | p :: ps =>
    match inflatePng codec acc p with
    | .error e => .error e
    | .ok acc2 => catpngFoldFrom codec acc2 ps

/-- The `try_fold` of `catpng` from the initial `(None, Vec::new())`. -/
def catpngFold (codec : Codec) (pngs : List (List Nat)) :
    Except PngError (Option IhdrData × List Nat) :=
  catpngFoldFrom codec (none, []) pngs

/-- `catpng`: fold all inputs, then compress the accumulated buffer into
the output IDAT chunk.  `.ok none` models the `expect("output IHDR")`
panic reached when the fold finishes with no accumulated IHDR (zero
inputs): the program aborts rather than returning `Ok` or `Err`. -/
def catpng (codec : Codec) (pngs : List (List Nat)) (level : Nat) :
    Except PngError (Option (IhdrData × PngChunk)) :=
  (catpngFold codec pngs).map fun acc =>
    acc.1.map fun ihdr =>
      (ihdr, PngChunk.mk .idat (codec.compress acc.2 level))

/-- `write_png`: signature, IHDR chunk, IDAT chunk, IEND chunk. -/
def write_png (ihdr : IhdrData) (idat : PngChunk) : List Nat :=
  pngSignature ++ pngChunkWrite (ihdrToChunk ihdr) ++ pngChunkWrite idat ++
    pngChunkWrite pngIend

/-- Per-input decode (specification device): signature, IHDR, inflated
IDAT payload — exactly the read path of `inflate_png` without the
accumulator interaction. -/
def decodePng (codec : Codec) (png : List Nat) :
    Except PngError (IhdrData × List Nat) :=
  if png.take 8 = pngSignature then
    match pngChunkNew (png.drop 8) with
    | .error e => .error e
    | .ok (c1, r1) =>
      match ihdrFromChunk c1 with
      | .error e => .error e
      | .ok ihdr =>
        match pngChunkNew r1 with
        | .error e => .error e
        | .ok (c2, _) =>
          match codec.inflate c2.data with
          | none => .error .decompress
          | some bytes => .ok (ihdr, bytes)
  else .error .invalidSignature

/-- Decode every input (fail-fast), collecting per-input IHDR and inflated
IDAT payload. -/
def decodePngs (codec : Codec) :
    List (List Nat) → Except PngError (List (IhdrData × List Nat))
  | [] => .ok []
  | p :: ps =>
    match decodePng codec p with
    | .error e => .error e
    | .ok r =>
      match decodePngs codec ps with
      | .error e => .error e
      | .ok rs => .ok (r :: rs)

/-- A chunk serialized with an all-zero CRC field (test device: the reader
skips the CRC, so such streams parse like correctly-checksummed ones). -/
def chunkRaw (c : PngChunk) : List Nat :=
  u32BE c.data.length ++ typeCode c.kind ++ c.data ++ [0, 0, 0, 0]

/-- A minimal PNG stream with zeroed CRCs (test device). -/
def mkPngRaw (v : IhdrData) (idat : List Nat) : List Nat :=
  pngSignature ++ chunkRaw (ihdrToChunk v) ++ chunkRaw ⟨.idat, idat⟩

/-! ## Codec lemmas -/

theorem readU32BE_u32BE (n : Nat) (r : List Nat) :
    readU32BE (u32BE n ++ r) = some (n % 4294967296, r) := by
  simp only [u32BE, List.cons_append, List.nil_append, readU32BE]
  refine congrArg some (Prod.ext ?_ rfl)
  simp only
  omega

theorem readBytes_exact (n : Nat) (xs r : List Nat) (h : xs.length = n) :
    readBytes n (xs ++ r) = some (xs, r) := by
  subst h
  simp [readBytes, List.take_left, List.drop_left]

theorem kindOfCode_typeCode (k : PngChunkKind) :
    kindOfCode (typeCode k) = some k := by
  cases k <;> rfl

theorem u32BE_length (n : Nat) : (u32BE n).length = 4 := rfl

theorem typeCode_length (k : PngChunkKind) : (typeCode k).length = 4 := by
  cases k <;> rfl

/-- Decoding a serialized chunk followed by anything recovers the chunk and
leaves exactly the trailing bytes, provided the payload length fits in u32
and, for IHDR, equals 13. -/
theorem pngChunkNew_write (c : PngChunk) (r : List Nat)
    (hlen : c.data.length < 4294967296)
    (hIhdr : c.kind = PngChunkKind.ihdr → c.data.length = 13) :
    pngChunkNew (pngChunkWrite c ++ r) = .ok (c, r) := by
  unfold pngChunkWrite pngChunkNew
  rw [List.append_assoc, List.append_assoc, List.append_assoc, readU32BE_u32BE]
  dsimp only
  simp only [Nat.mod_eq_of_lt hlen]
  rw [readBytes_exact 4 (typeCode c.kind) _ (typeCode_length c.kind)]
  dsimp only
  rw [kindOfCode_typeCode]
  dsimp only
  have hguard : ¬(c.kind = PngChunkKind.ihdr ∧ c.data.length ≠ 13) := by
    rintro ⟨hk, hne⟩; exact hne (hIhdr hk)
  rw [if_neg hguard, readBytes_exact c.data.length c.data _ rfl]
  dsimp only
  rw [readBytes_exact 4 _ _ (u32BE_length _)]

/-- Same statement for the raw (zero-CRC) serialization used in tests. -/
theorem pngChunkNew_chunkRaw (c : PngChunk) (r : List Nat)
    (hlen : c.data.length < 4294967296)
    (hIhdr : c.kind = PngChunkKind.ihdr → c.data.length = 13) :
    pngChunkNew (chunkRaw c ++ r) = .ok (c, r) := by
  unfold chunkRaw pngChunkNew
  rw [List.append_assoc, List.append_assoc, List.append_assoc, readU32BE_u32BE]
  dsimp only
  simp only [Nat.mod_eq_of_lt hlen]
  rw [readBytes_exact 4 (typeCode c.kind) _ (typeCode_length c.kind)]
  dsimp only
  rw [kindOfCode_typeCode]
  dsimp only
  have hguard : ¬(c.kind = PngChunkKind.ihdr ∧ c.data.length ≠ 13) := by
    rintro ⟨hk, hne⟩; exact hne (hIhdr hk)
  rw [if_neg hguard, readBytes_exact c.data.length c.data _ rfl]
  dsimp only
  rw [readBytes_exact 4 [0, 0, 0, 0] _ rfl]

theorem ihdrToChunk_kind (v : IhdrData) : (ihdrToChunk v).kind = .ihdr := rfl

theorem ihdrToChunk_data_length (v : IhdrData) :
    (ihdrToChunk v).data.length = 13 := by
  simp [ihdrToChunk, u32BE]

/-- Decoding the encoded IHDR payload recovers the record, for in-range
field values. -/
theorem ihdrFromChunk_ihdrToChunk (v : IhdrData) (h : v.WF) :
    ihdrFromChunk (ihdrToChunk v) = .ok v := by
  obtain ⟨h1, h2, h3, h4, h5, h6, h7⟩ := h
  unfold ihdrFromChunk ihdrToChunk
  rw [if_neg (by simp)]
  simp only [List.append_assoc]
  rw [readU32BE_u32BE]
  dsimp only
  rw [Nat.mod_eq_of_lt h1, readU32BE_u32BE]
  dsimp only
  rw [Nat.mod_eq_of_lt h2]
  simp only [Nat.mod_eq_of_lt h3, Nat.mod_eq_of_lt h4, Nat.mod_eq_of_lt h5,
    Nat.mod_eq_of_lt h6, Nat.mod_eq_of_lt h7]

/-! ## `inflate_png` lemmas -/

theorem inflatePng_bad_sig (codec : Codec) (acc : Option IhdrData × List Nat)
    (png : List Nat) (h : png.take 8 ≠ pngSignature) :
    inflatePng codec acc png = .error .invalidSignature := by
  unfold inflatePng; rw [if_neg h]

theorem inflatePng_width_mismatch (codec : Codec) (s : IhdrData)
    (buf png : List Nat) (c1 : PngChunk) (r1 : List Nat) (i : IhdrData)
    (hsig : png.take 8 = pngSignature)
    (h1 : pngChunkNew (png.drop 8) = .ok (c1, r1))
    (h2 : ihdrFromChunk c1 = .ok i)
    (hw : i.width ≠ s.width) :
    inflatePng codec (some s, buf) png = .error .unequalWidth := by
  unfold inflatePng
  rw [if_pos hsig, h1]
  dsimp only
  rw [h2]
  dsimp only [Option.any_some]
  rw [if_pos (by simpa using hw.symm)]

/-- Seeding step: from the empty accumulator, `inflate_png` is exactly the
per-input decode followed by seeding. -/
theorem inflatePng_none_eq (codec : Codec) (buf png : List Nat) :
    inflatePng codec (none, buf) png =
      (decodePng codec png).map fun r => (some r.1, buf ++ r.2) := by
  unfold inflatePng decodePng
  by_cases hsig : png.take 8 = pngSignature
  · rw [if_pos hsig, if_pos hsig]
    cases h1 : pngChunkNew (png.drop 8) with
    | error e => rfl
    | ok p =>
      obtain ⟨c1, r1⟩ := p
      dsimp only
      cases h2 : ihdrFromChunk c1 with
      | error e => rfl
      | ok i =>
        dsimp only [Option.any_none, Bool.false_eq_true, if_false]
        cases h3 : pngChunkNew r1 with
        | error e => rfl
        | ok q =>
          obtain ⟨c2, r2⟩ := q
          dsimp only
          cases h4 : codec.inflate c2.data with
          | none => rfl
          | some bytes => rfl
  · rw [if_neg hsig, if_neg hsig]; rfl

/-- Accumulation step: a successful `inflate_png` from a seeded accumulator
is exactly a successful per-input decode with matching width, adding the
height (u32 wrapping) and appending the inflated payload. -/
theorem inflatePng_some_ok (codec : Codec) (s : IhdrData)
    (buf png : List Nat) (out : Option IhdrData × List Nat)
    (h : inflatePng codec (some s, buf) png = .ok out) :
    ∃ i bs, decodePng codec png = .ok (i, bs) ∧ i.width = s.width ∧
      out = (some (s.addHeight i.height), buf ++ bs) := by
  unfold inflatePng at h
  by_cases hsig : png.take 8 = pngSignature
  · rw [if_pos hsig] at h
    cases h1 : pngChunkNew (png.drop 8) with
    | error e => rw [h1] at h; exact absurd h (by simp)
    | ok p =>
      obtain ⟨c1, r1⟩ := p
      rw [h1] at h; dsimp only at h
      cases h2 : ihdrFromChunk c1 with
      | error e => rw [h2] at h; exact absurd h (by simp)
      | ok i =>
        rw [h2] at h; dsimp only [Option.any_some] at h
        by_cases hw : s.width = i.width
        · rw [if_neg (by simp [hw])] at h
          cases h3 : pngChunkNew r1 with
          | error e => rw [h3] at h; exact absurd h (by simp)
          | ok q =>
            obtain ⟨c2, r2⟩ := q
            rw [h3] at h; dsimp only at h
            cases h4 : codec.inflate c2.data with
            | none => rw [h4] at h; exact absurd h (by simp)
            | some bytes =>
              rw [h4] at h; dsimp only at h
              refine ⟨i, bytes, ?_, hw.symm, (Except.ok.inj h).symm⟩
              unfold decodePng
              rw [if_pos hsig, h1]; dsimp only
              rw [h2]; dsimp only
              rw [h3]; dsimp only
              rw [h4]
        · rw [if_pos (by simpa using hw)] at h
          exact absurd h (by simp)
  · rw [if_neg hsig] at h; exact absurd h (by simp)

theorem addHeight_width (s : IhdrData) (h : Nat) :
    (s.addHeight h).width = s.width := rfl

theorem addHeight_addHeight (s : IhdrData) (a b : Nat) :
    (s.addHeight a).addHeight b = s.addHeight (a + b) := by
  unfold IhdrData.addHeight
  simp [Nat.mod_add_mod, Nat.add_assoc]

/-! ## Fold lemmas -/

theorem catpngFoldFrom_append_ok (codec : Codec)
    (l1 : List (List Nat)) (acc acc2 : Option IhdrData × List Nat)
    (l2 : List (List Nat)) (h : catpngFoldFrom codec acc l1 = .ok acc2) :
    catpngFoldFrom codec acc (l1 ++ l2) = catpngFoldFrom codec acc2 l2 := by
  induction l1 generalizing acc with
  | nil =>
    unfold catpngFoldFrom at h
    rw [List.nil_append, Except.ok.inj h]
  | cons p ps ih =>
    unfold catpngFoldFrom at h ⊢
    rw [List.cons_append]
    dsimp only
    cases h0 : inflatePng codec acc p with
    | error e => rw [h0] at h; exact absurd h (by simp)
    | ok accMid =>
      rw [h0] at h
      dsimp only at h ⊢
      refine (ih accMid h).trans ?_
      cases l2 <;> rfl

/-- A successful fold from a seeded accumulator decodes every remaining
input, requires every width to equal the seed's, appends all inflated
payloads in order, and accumulates heights with u32 wrapping. -/
theorem catpngFoldFrom_some_ok (codec : Codec) :
    ∀ (pngs : List (List Nat)) (s : IhdrData) (buf : List Nat)
      (st : Option IhdrData) (bufOut : List Nat),
      catpngFoldFrom codec (some s, buf) pngs = .ok (st, bufOut) →
      ∃ rs, decodePngs codec pngs = .ok rs ∧
        (∀ r ∈ rs, (Prod.fst r).width = s.width) ∧
        bufOut = buf ++ (rs.map Prod.snd).flatten ∧
        ((pngs = [] ∧ rs = [] ∧ st = some s) ∨
          st = some (s.addHeight ((rs.map fun r => (Prod.fst r).height).sum)))
  | [], s, buf, st, bufOut => by
    intro h
    refine ⟨[], rfl, by simp, ?_, Or.inl ⟨rfl, rfl, ?_⟩⟩ <;>
      · unfold catpngFoldFrom at h
        obtain ⟨h1, h2⟩ := Prod.mk.inj (Except.ok.inj h)
        simp [h1, h2]
  | p :: ps, s, buf, st, bufOut => by
    intro h
    unfold catpngFoldFrom at h
    cases h0 : inflatePng codec (some s, buf) p with
    | error e => rw [h0] at h; exact absurd h (by simp)
    | ok acc2 =>
      rw [h0] at h
      obtain ⟨i, bs, hdec, hw, hacc⟩ := inflatePng_some_ok codec s buf p acc2 h0
      subst hacc
      obtain ⟨rs, hrs, hwid, hbuf, hst⟩ :=
        catpngFoldFrom_some_ok codec ps (s.addHeight i.height) (buf ++ bs)
          st bufOut h
      refine ⟨(i, bs) :: rs, ?_, ?_, ?_, ?_⟩
      · unfold decodePngs; rw [hdec, hrs]
      · intro r hr
        rcases List.mem_cons.mp hr with hr | hr
        · rw [hr]; exact hw
        · exact (hwid r hr).trans (addHeight_width s i.height)
      · simp [hbuf]
      · refine Or.inr ?_
        rcases hst with ⟨hps, hnil, hst⟩ | hst
        · subst hps; subst hnil
          rw [hst]; simp
        · rw [hst, addHeight_addHeight]; simp

/-- The first processed input seeds the accumulator with its decoded IHDR
and inflated payload. -/
theorem catpngFold_cons_ok (codec : Codec) (p : List Nat)
    (ps : List (List Nat)) (st : Option IhdrData) (bufOut : List Nat)
    (h : catpngFold codec (p :: ps) = .ok (st, bufOut)) :
    ∃ i bs, decodePng codec p = .ok (i, bs) ∧
      catpngFoldFrom codec (some i, bs) ps = .ok (st, bufOut) := by
  unfold catpngFold catpngFoldFrom at h
  rw [inflatePng_none_eq] at h
  cases hdec : decodePng codec p with
  | error e => rw [hdec] at h; exact absurd h (by simp [Except.map])
  | ok r =>
    obtain ⟨i, bs⟩ := r
    rw [hdec] at h
    exact ⟨i, bs, rfl, by simpa [Except.map] using h⟩

/-- Shape of every successful run: the first input decodes and seeds, the
rest decode with equal widths, the buffer is the in-order concatenation of
all inflated payloads, and the final IHDR is the seed with heights
accumulated modulo `2 ^ 32`. -/
theorem catpngFold_ok_shape (codec : Codec) (p : List Nat)
    (ps : List (List Nat)) (st : Option IhdrData) (bufOut : List Nat)
    (h : catpngFold codec (p :: ps) = .ok (st, bufOut)) :
    ∃ i bs rs, decodePngs codec (p :: ps) = .ok ((i, bs) :: rs) ∧
      (∀ r ∈ rs, (Prod.fst r).width = i.width) ∧
      bufOut = bs ++ (rs.map Prod.snd).flatten ∧
      ((ps = [] ∧ rs = [] ∧ st = some i) ∨
        st = some (i.addHeight ((rs.map fun r => (Prod.fst r).height).sum))) := by
  obtain ⟨i, bs, hdec, hfold⟩ := catpngFold_cons_ok codec p ps st bufOut h
  obtain ⟨rs, hrs, hwid, hbuf, hst⟩ :=
    catpngFoldFrom_some_ok codec ps i bs st bufOut hfold
  refine ⟨i, bs, rs, ?_, hwid, hbuf, hst⟩
  unfold decodePngs; rw [hdec, hrs]

/-- Evaluation of `PngChunk::new` once an 8-byte header (length + tag) is
available: the tag decides the kind, the IHDR length guard fires before
any payload byte is consumed, then payload and CRC reads may truncate. -/
theorem pngChunkNew_header (l0 l1 l2 l3 t0 t1 t2 t3 : Nat) (rest : List Nat) :
    pngChunkNew (l0 :: l1 :: l2 :: l3 :: t0 :: t1 :: t2 :: t3 :: rest) =
      match kindOfCode [t0, t1, t2, t3] with
      | none => .error (.unsupportedTypeCode [t0, t1, t2, t3])
      | some kind =>
        if kind = PngChunkKind.ihdr ∧
            l0 * 16777216 + l1 * 65536 + l2 * 256 + l3 ≠ 13 then
          .error .invalidIhdrLength
        else
          match readBytes (l0 * 16777216 + l1 * 65536 + l2 * 256 + l3) rest with
          | none => .error .io
          | some (data, s3) =>
            match readBytes 4 s3 with
            | none => .error .io
            | some (_, s4) => .ok (⟨kind, data⟩, s4) := by
  unfold pngChunkNew
  dsimp only [readU32BE]
  rw [show (t0 :: t1 :: t2 :: t3 :: rest) = [t0, t1, t2, t3] ++ rest from rfl,
    readBytes_exact 4 [t0, t1, t2, t3] rest rfl]

theorem u32BE_bytes (b0 b1 b2 b3 : Nat) (h0 : b0 < 256) (h1 : b1 < 256)
    (h2 : b2 < 256) (h3 : b3 < 256) :
    u32BE (b0 * 16777216 + b1 * 65536 + b2 * 256 + b3) = [b0, b1, b2, b3] := by
  simp only [u32BE, List.cons.injEq, and_true]
  refine ⟨?_, ?_, ?_, ?_⟩ <;> omega

set_option maxRecDepth 4096 in
/-- CRC-32 sanity anchor: the standard check value of the IEEE/ISO-3309
polynomial on the ASCII bytes of the string 123456789. -/
theorem crc32_check_value :
    crc32 [49, 50, 51, 52, 53, 54, 55, 56, 57] = 3421780262 := by decide

/-! ## Claim theorems -/

/-- C9: with zero inputs, `catpng` returns no error: the fold yields
`(None, [])` and the `expect("output IHDR")` then panics, modelled by the
`.ok none` outcome — neither an `Ok` payload nor an `Err`. -/
theorem catpng_nil_panics (codec : Codec) (level : Nat) :
    catpng codec [] level = .ok none ∧
      catpngFold codec [] = .ok (none, []) :=
  ⟨rfl, rfl⟩

/-- C5: `PngChunk::new` consumes but never verifies the 4 CRC bytes: two
streams identical except in those 4 bytes decode to the same result
(same chunk kind, same payload, same remaining stream). -/
theorem pngChunkNew_ignores_crc (l0 l1 l2 l3 t0 t1 t2 t3 : Nat)
    (payload cA cB rest : List Nat)
    (hp : payload.length = l0 * 16777216 + l1 * 65536 + l2 * 256 + l3)
    (hA : cA.length = 4) (hB : cB.length = 4) :
    pngChunkNew (l0 :: l1 :: l2 :: l3 :: t0 :: t1 :: t2 :: t3 ::
        (payload ++ cA ++ rest)) =
      pngChunkNew (l0 :: l1 :: l2 :: l3 :: t0 :: t1 :: t2 :: t3 ::
        (payload ++ cB ++ rest)) := by
  rw [pngChunkNew_header, pngChunkNew_header]
  cases kindOfCode [t0, t1, t2, t3] with
  | none => rfl
  | some kind =>
    dsimp only
    by_cases hg : kind = PngChunkKind.ihdr ∧
        l0 * 16777216 + l1 * 65536 + l2 * 256 + l3 ≠ 13
    · simp only [if_pos hg]
    · simp only [if_neg hg]
      rw [List.append_assoc payload cA rest, List.append_assoc payload cB rest,
        readBytes_exact _ payload (cA ++ rest) hp,
        readBytes_exact _ payload (cB ++ rest) hp]
      dsimp only
      rw [readBytes_exact 4 cA rest hA, readBytes_exact 4 cB rest hB]

/-- C5 witness: a concrete IDAT chunk decoded under two different CRC
fields gives identical results. -/
theorem pngChunkNew_ignores_crc_witness :
    ([9, 8, 7] : List Nat).length = 0 * 16777216 + 0 * 65536 + 0 * 256 + 3 ∧
    ([0, 0, 0, 0] : List Nat).length = 4 ∧
    ([222, 173, 190, 239] : List Nat).length = 4 ∧
    pngChunkNew (0 :: 0 :: 0 :: 3 :: 73 :: 68 :: 65 :: 84 ::
        ([9, 8, 7] ++ [0, 0, 0, 0] ++ [42])) =
      pngChunkNew (0 :: 0 :: 0 :: 3 :: 73 :: 68 :: 65 :: 84 ::
        ([9, 8, 7] ++ [222, 173, 190, 239] ++ [42])) :=
  ⟨by decide, by decide, by decide,
    pngChunkNew_ignores_crc 0 0 0 3 73 68 65 84 [9, 8, 7] [0, 0, 0, 0]
      [222, 173, 190, 239] [42] (by decide) (by decide) (by decide)⟩

/-- C6: `PngChunk::write` emits, in order, the 4-byte big-endian payload
length (the first four bytes big-endian-decode back to `data.len()` when
it fits in u32), the 4-byte type tag, the raw payload, and the 4-byte
big-endian CRC-32 (ISO-3309 IEEE polynomial) of tag ++ payload; the total
size is `data.len() + 12`. -/
theorem pngChunkWrite_layout (c : PngChunk)
    (h : c.data.length < 4294967296) :
    pngChunkWrite c =
      u32BE c.data.length ++ typeCode c.kind ++ c.data ++
        u32BE (crc32 (typeCode c.kind ++ c.data)) ∧
    readU32BE (pngChunkWrite c) =
      some (c.data.length,
        typeCode c.kind ++ (c.data ++
          u32BE (crc32 (typeCode c.kind ++ c.data)))) ∧
    (pngChunkWrite c).length = c.data.length + 12 := by
  refine ⟨rfl, ?_, ?_⟩
  · unfold pngChunkWrite
    rw [List.append_assoc, List.append_assoc, readU32BE_u32BE,
      Nat.mod_eq_of_lt h]
  · simp only [pngChunkWrite, List.length_append, u32BE_length,
      typeCode_length]
    omega

/-- C6 witness: the layout theorem applied to a concrete 3-byte IDAT
chunk. -/
theorem pngChunkWrite_layout_witness :
    (PngChunk.mk .idat [1, 2, 3]).data.length < 4294967296 ∧
    (pngChunkWrite (PngChunk.mk .idat [1, 2, 3]) =
      u32BE 3 ++ typeCode .idat ++ [1, 2, 3] ++
        u32BE (crc32 (typeCode .idat ++ [1, 2, 3])) ∧
    readU32BE (pngChunkWrite (PngChunk.mk .idat [1, 2, 3])) =
      some (3, typeCode .idat ++ ([1, 2, 3] ++
        u32BE (crc32 (typeCode .idat ++ [1, 2, 3])))) ∧
    (pngChunkWrite (PngChunk.mk .idat [1, 2, 3])).length = 3 + 12) :=
  ⟨by decide, pngChunkWrite_layout (PngChunk.mk .idat [1, 2, 3]) (by decide)⟩

/-- C7: with the 8-byte chunk header (length + tag) available,
`PngChunk::new` fails with `UnsupportedTypeCode` exactly when the tag is
outside IHDR/IDAT/IEND; fails with `InvalidIhdrLength` exactly when the
tag is IHDR and the declared length is not 13 — for every remainder of the
stream, so before any payload byte is read; and, for a supported tag
passing the IHDR guard, fails with an I/O error exactly when fewer than
`length` payload bytes plus 4 CRC bytes remain. -/
theorem pngChunkNew_error_classes (l0 l1 l2 l3 t0 t1 t2 t3 : Nat)
    (rest : List Nat) :
    (pngChunkNew (l0 :: l1 :: l2 :: l3 :: t0 :: t1 :: t2 :: t3 :: rest) =
        .error (.unsupportedTypeCode [t0, t1, t2, t3]) ↔
      kindOfCode [t0, t1, t2, t3] = none) ∧
    (pngChunkNew (l0 :: l1 :: l2 :: l3 :: t0 :: t1 :: t2 :: t3 :: rest) =
        .error .invalidIhdrLength ↔
      (kindOfCode [t0, t1, t2, t3] = some .ihdr ∧
        l0 * 16777216 + l1 * 65536 + l2 * 256 + l3 ≠ 13)) ∧
    (∀ kind, kindOfCode [t0, t1, t2, t3] = some kind →
      (kind = PngChunkKind.ihdr →
        l0 * 16777216 + l1 * 65536 + l2 * 256 + l3 = 13) →
      (pngChunkNew (l0 :: l1 :: l2 :: l3 :: t0 :: t1 :: t2 :: t3 :: rest) =
          .error .io ↔
        rest.length < l0 * 16777216 + l1 * 65536 + l2 * 256 + l3 + 4)) := by
  simp only [pngChunkNew_header]
  cases hk : kindOfCode [t0, t1, t2, t3] with
  | none =>
    refine ⟨by simp, by simp, ?_⟩
    intro kind hkind
    exact absurd hkind (by simp)
  | some kind =>
    dsimp only
    by_cases hg : kind = PngChunkKind.ihdr ∧
        l0 * 16777216 + l1 * 65536 + l2 * 256 + l3 ≠ 13
    · simp only [if_pos hg]
      refine ⟨by simp, ?_, ?_⟩
      · simp only [Option.some.injEq]
        constructor
        · intro _; exact ⟨by rw [hg.1], hg.2⟩
        · intro _; trivial
      · intro kind' hkind' hlen13
        rw [Option.some.inj hkind'] at hg
        exact absurd (hlen13 hg.1) hg.2
    · simp only [if_neg hg]
      by_cases hL : l0 * 16777216 + l1 * 65536 + l2 * 256 + l3 ≤ rest.length
      · rw [show readBytes (l0 * 16777216 + l1 * 65536 + l2 * 256 + l3) rest =
            some (rest.take (l0 * 16777216 + l1 * 65536 + l2 * 256 + l3),
              rest.drop (l0 * 16777216 + l1 * 65536 + l2 * 256 + l3)) from
          if_pos hL]
        dsimp only
        by_cases hc : 4 ≤ (rest.drop
            (l0 * 16777216 + l1 * 65536 + l2 * 256 + l3)).length
        · rw [show readBytes 4 (rest.drop
              (l0 * 16777216 + l1 * 65536 + l2 * 256 + l3)) =
              some ((rest.drop
                  (l0 * 16777216 + l1 * 65536 + l2 * 256 + l3)).take 4,
                (rest.drop
                  (l0 * 16777216 + l1 * 65536 + l2 * 256 + l3)).drop 4) from
            if_pos hc]
          dsimp only
          rw [List.length_drop] at hc
          refine ⟨by simp, ⟨by simp, fun h => absurd ⟨Option.some.inj h.1, h.2⟩ hg⟩,
            fun _ _ _ => ⟨by simp, fun hlt => absurd hlt (by omega)⟩⟩
        · rw [show readBytes 4 (rest.drop
              (l0 * 16777216 + l1 * 65536 + l2 * 256 + l3)) = none from
            if_neg hc]
          rw [List.length_drop] at hc
          refine ⟨by simp, ⟨by simp, fun h => absurd ⟨Option.some.inj h.1, h.2⟩ hg⟩,
            fun _ _ _ => ⟨fun _ => by omega, fun _ => rfl⟩⟩
      · rw [show readBytes (l0 * 16777216 + l1 * 65536 + l2 * 256 + l3)
            rest = none from if_neg hL]
        refine ⟨by simp, ⟨by simp, fun h => absurd ⟨Option.some.inj h.1, h.2⟩ hg⟩,
          fun _ _ _ => ⟨fun _ => by omega, fun _ => rfl⟩⟩

/-- C7 witness: an unknown tag (gAMA) is rejected as unsupported; an IHDR
chunk with declared length 12 and an empty remainder (no payload bytes at
all) is rejected as an invalid IHDR length; an IDAT chunk declaring 3
payload bytes with only 5 bytes remaining (3 payload + 2 CRC) fails with
an I/O error. -/
theorem pngChunkNew_error_classes_witness :
    (pngChunkNew (0 :: 0 :: 0 :: 0 :: 103 :: 65 :: 77 :: 65 :: ([] : List Nat)) =
        .error (.unsupportedTypeCode [103, 65, 77, 65]) ↔
      kindOfCode [103, 65, 77, 65] = none) ∧
    (pngChunkNew (0 :: 0 :: 0 :: 12 :: 73 :: 72 :: 68 :: 82 :: ([] : List Nat)) =
        .error .invalidIhdrLength ↔
      (kindOfCode [73, 72, 68, 82] = some .ihdr ∧
        0 * 16777216 + 0 * 65536 + 0 * 256 + 12 ≠ 13)) ∧
    (kindOfCode [73, 68, 65, 84] = some PngChunkKind.idat) ∧
    (pngChunkNew (0 :: 0 :: 0 :: 3 :: 73 :: 68 :: 65 :: 84 ::
        ([1, 2, 3, 0, 0] : List Nat)) = .error .io ↔
      ([1, 2, 3, 0, 0] : List Nat).length <
        0 * 16777216 + 0 * 65536 + 0 * 256 + 3 + 4) :=
  ⟨(pngChunkNew_error_classes 0 0 0 0 103 65 77 65 []).1,
    (pngChunkNew_error_classes 0 0 0 12 73 72 68 82 []).2.1,
    by decide,
    (pngChunkNew_error_classes 0 0 0 3 73 68 65 84 [1, 2, 3, 0, 0]).2.2
      PngChunkKind.idat (by decide) (fun h => by cases h)⟩

/-- C8: the 13-byte IHDR payload codec is a field-order-preserving mirror:
decoding the chunk encoded from any (type-range-respecting) `IhdrData`
yields it back, and re-encoding the record decoded from any 13-byte IHDR
chunk reproduces the chunk byte for byte; no field value is validated in
either direction. -/
theorem ihdr_payload_mirror :
    (∀ v : IhdrData, v.WF → ihdrFromChunk (ihdrToChunk v) = .ok v) ∧
    (∀ b0 b1 b2 b3 b4 b5 b6 b7 b8 b9 b10 b11 b12 : Nat,
      b0 < 256 → b1 < 256 → b2 < 256 → b3 < 256 → b4 < 256 → b5 < 256 →
      b6 < 256 → b7 < 256 → b8 < 256 → b9 < 256 → b10 < 256 → b11 < 256 →
      b12 < 256 →
      (ihdrFromChunk
          ⟨.ihdr, [b0, b1, b2, b3, b4, b5, b6, b7, b8, b9, b10, b11, b12]⟩).map
          ihdrToChunk =
        .ok ⟨.ihdr, [b0, b1, b2, b3, b4, b5, b6, b7, b8, b9, b10, b11, b12]⟩) := by
  refine ⟨ihdrFromChunk_ihdrToChunk, ?_⟩
  intro b0 b1 b2 b3 b4 b5 b6 b7 b8 b9 b10 b11 b12
  intro h0 h1 h2 h3 h4 h5 h6 h7 h8 h9 h10 h11 h12
  unfold ihdrFromChunk
  rw [if_neg (by simp)]
  dsimp only [readU32BE, Except.map, ihdrToChunk]
  rw [u32BE_bytes b0 b1 b2 b3 h0 h1 h2 h3, u32BE_bytes b4 b5 b6 b7 h4 h5 h6 h7,
    Nat.mod_eq_of_lt h8, Nat.mod_eq_of_lt h9, Nat.mod_eq_of_lt h10,
    Nat.mod_eq_of_lt h11, Nat.mod_eq_of_lt h12]
  rfl

/-- C8 witness: mirror in both directions on a concrete record and a
concrete 13-byte payload. -/
theorem ihdr_payload_mirror_witness :
    (IhdrData.mk 5 7 8 2 0 0 0).WF ∧
    ihdrFromChunk (ihdrToChunk (IhdrData.mk 5 7 8 2 0 0 0)) =
      .ok (IhdrData.mk 5 7 8 2 0 0 0) ∧
    (ihdrFromChunk
        ⟨.ihdr, [0, 0, 0, 5, 0, 0, 0, 7, 8, 2, 0, 0, 0]⟩).map ihdrToChunk =
      .ok ⟨.ihdr, [0, 0, 0, 5, 0, 0, 0, 7, 8, 2, 0, 0, 0]⟩ :=
  ⟨by decide,
    ihdr_payload_mirror.1 (IhdrData.mk 5 7 8 2 0 0 0) (by decide),
    ihdr_payload_mirror.2 0 0 0 5 0 0 0 7 8 2 0 0 0 (by decide) (by decide)
      (by decide) (by decide) (by decide) (by decide) (by decide) (by decide)
      (by decide) (by decide) (by decide) (by decide) (by decide)⟩

/-- C1: whenever `catpng` succeeds, every input decodes, and inflating the
output IDAT payload (the compressed accumulator) yields exactly the
byte-wise concatenation, in input order, of the inputs' inflated IDAT
payloads — assuming the zlib codec satisfies its round-trip contract. -/
theorem catpng_concat (codec : Codec) (pngs : List (List Nat)) (level : Nat)
    (ihdr : IhdrData) (idat : PngChunk) (hRT : RoundTrip codec)
    (h : catpng codec pngs level = .ok (some (ihdr, idat))) :
    ∃ rs, decodePngs codec pngs = .ok rs ∧
      codec.inflate idat.data = some ((rs.map Prod.snd).flatten) := by
  cases pngs with
  | nil =>
    exact absurd h (by simp [catpng, catpngFold, catpngFoldFrom, Except.map])
  | cons p ps =>
    unfold catpng at h
    cases hf : catpngFold codec (p :: ps) with
    | error e => rw [hf] at h; exact absurd h (by simp [Except.map])
    | ok acc =>
      obtain ⟨st, buf⟩ := acc
      rw [hf] at h
      dsimp only [Except.map] at h
      cases st with
      | none => exact absurd h (by simp)
      | some i =>
        obtain ⟨hi, hidat⟩ :=
          Prod.mk.inj (Option.some.inj (Except.ok.inj h))
        obtain ⟨ib, bs, rs, hdec, hwid, hbuf, hst⟩ :=
          catpngFold_ok_shape codec p ps (some i) buf hf
        refine ⟨(ib, bs) :: rs, hdec, ?_⟩
        rw [← hidat]
        dsimp only
        rw [hRT buf level, hbuf]
        simp

/-- C1 witness: two concrete inputs with payloads `[1,2,3]` and `[4,5,6]`
concatenate to `[1,2,3,4,5,6]`. -/
theorem catpng_concat_witness :
    RoundTrip idCodec ∧
    catpng idCodec
        [mkPngRaw (IhdrData.mk 69 25 0 0 0 0 0) [1, 2, 3],
         mkPngRaw (IhdrData.mk 69 30 0 0 0 0 0) [4, 5, 6]] 0 =
      .ok (some (IhdrData.mk 69 55 0 0 0 0 0,
        PngChunk.mk .idat [1, 2, 3, 4, 5, 6])) ∧
    ∃ rs, decodePngs idCodec
        [mkPngRaw (IhdrData.mk 69 25 0 0 0 0 0) [1, 2, 3],
         mkPngRaw (IhdrData.mk 69 30 0 0 0 0 0) [4, 5, 6]] = .ok rs ∧
      idCodec.inflate (PngChunk.mk .idat [1, 2, 3, 4, 5, 6]).data =
        some ((rs.map Prod.snd).flatten) :=
  ⟨idCodec_roundTrip, by decide,
    catpng_concat idCodec
      [mkPngRaw (IhdrData.mk 69 25 0 0 0 0 0) [1, 2, 3],
       mkPngRaw (IhdrData.mk 69 30 0 0 0 0 0) [4, 5, 6]] 0
      (IhdrData.mk 69 55 0 0 0 0 0) (PngChunk.mk .idat [1, 2, 3, 4, 5, 6])
      idCodec_roundTrip (by decide)⟩

/-- C2 (amended): on every successful non-empty run, the output IHDR takes
its width, bit depth, color type, compression, filter and interlace fields
from the first input's IHDR, and its height is the sum of all inputs'
heights reduced modulo `2 ^ 32` (the plain sum whenever no overflow
occurs). -/
theorem catpng_output_ihdr (codec : Codec) (p : List Nat)
    (ps : List (List Nat)) (level : Nat) (ihdr : IhdrData) (idat : PngChunk)
    (h : catpng codec (p :: ps) level = .ok (some (ihdr, idat))) :
    ∃ i bs rs, decodePngs codec (p :: ps) = .ok ((i, bs) :: rs) ∧
      ihdr.width = i.width ∧ ihdr.bit_depth = i.bit_depth ∧
      ihdr.color_type = i.color_type ∧ ihdr.compression = i.compression ∧
      ihdr.filter = i.filter ∧ ihdr.interlace = i.interlace ∧
      (i.height < 4294967296 →
        ihdr.height =
          (((i, bs) :: rs).map fun r => (Prod.fst r).height).sum %
            4294967296) := by
  unfold catpng at h
  cases hf : catpngFold codec (p :: ps) with
  | error e => rw [hf] at h; exact absurd h (by simp [Except.map])
  | ok acc =>
    obtain ⟨st, buf⟩ := acc
    rw [hf] at h
    dsimp only [Except.map] at h
    cases st with
    | none => exact absurd h (by simp)
    | some i0 =>
      obtain ⟨hi, _⟩ := Prod.mk.inj (Option.some.inj (Except.ok.inj h))
      obtain ⟨ib, bs, rs, hdec, hwid, hbuf, hst⟩ :=
        catpngFold_ok_shape codec p ps (some i0) buf hf
      subst hi
      refine ⟨ib, bs, rs, hdec, ?_⟩
      rcases hst with ⟨hps, hnil, hst⟩ | hst
      · subst hps; subst hnil
        rw [Option.some.inj hst]
        refine ⟨rfl, rfl, rfl, rfl, rfl, rfl, fun hlt => ?_⟩
        simp [Nat.mod_eq_of_lt hlt]
      · rw [Option.some.inj hst]
        refine ⟨rfl, rfl, rfl, rfl, rfl, rfl, fun _ => ?_⟩
        simp [IhdrData.addHeight]

/-- C2 witness: two inputs of equal width 69 and heights 25 and 30 produce
width 69, height 55, remaining fields from the first input. -/
theorem catpng_output_ihdr_witness :
    catpng idCodec
        [mkPngRaw (IhdrData.mk 69 25 8 2 0 0 1) [1, 2, 3],
         mkPngRaw (IhdrData.mk 69 30 0 0 0 0 0) [4, 5, 6]] 0 =
      .ok (some (IhdrData.mk 69 55 8 2 0 0 1,
        PngChunk.mk .idat [1, 2, 3, 4, 5, 6])) ∧
    ∃ i bs rs, decodePngs idCodec
        [mkPngRaw (IhdrData.mk 69 25 8 2 0 0 1) [1, 2, 3],
         mkPngRaw (IhdrData.mk 69 30 0 0 0 0 0) [4, 5, 6]] =
        .ok ((i, bs) :: rs) ∧
      (IhdrData.mk 69 55 8 2 0 0 1).width = i.width ∧
      (IhdrData.mk 69 55 8 2 0 0 1).bit_depth = i.bit_depth ∧
      (IhdrData.mk 69 55 8 2 0 0 1).color_type = i.color_type ∧
      (IhdrData.mk 69 55 8 2 0 0 1).compression = i.compression ∧
      (IhdrData.mk 69 55 8 2 0 0 1).filter = i.filter ∧
      (IhdrData.mk 69 55 8 2 0 0 1).interlace = i.interlace ∧
      (i.height < 4294967296 →
        (IhdrData.mk 69 55 8 2 0 0 1).height =
          (((i, bs) :: rs).map fun r => (Prod.fst r).height).sum %
            4294967296) :=
  ⟨by decide,
    catpng_output_ihdr idCodec
      (mkPngRaw (IhdrData.mk 69 25 8 2 0 0 1) [1, 2, 3])
      [mkPngRaw (IhdrData.mk 69 30 0 0 0 0 0) [4, 5, 6]] 0
      (IhdrData.mk 69 55 8 2 0 0 1) (PngChunk.mk .idat [1, 2, 3, 4, 5, 6])
      (by decide)⟩

/-- C2 counterexample: the claim's unreduced sum fails under u32 overflow:
two inputs of height `2 ^ 31` each concatenate successfully to output
height 0, not `2 ^ 32`. -/
theorem catpng_height_sum_cex :
    decodePngs idCodec
        [mkPngRaw (IhdrData.mk 5 2147483648 0 0 0 0 0) [],
         mkPngRaw (IhdrData.mk 5 2147483648 0 0 0 0 0) []] =
      .ok [(IhdrData.mk 5 2147483648 0 0 0 0 0, []),
           (IhdrData.mk 5 2147483648 0 0 0 0 0, [])] ∧
    catpng idCodec
        [mkPngRaw (IhdrData.mk 5 2147483648 0 0 0 0 0) [],
         mkPngRaw (IhdrData.mk 5 2147483648 0 0 0 0 0) []] 10 =
      .ok (some (IhdrData.mk 5 0 0 0 0 0 0, PngChunk.mk .idat [])) ∧
    (0 : Nat) ≠ 2147483648 + 2147483648 :=
  ⟨by decide, by decide, by decide⟩

/-- C10: the height accumulation has no overflow guard: on every
successful run whose (u32-ranged) per-input heights sum to `2 ^ 32` or
more, the output height is the wrapped sum modulo `2 ^ 32`, which differs
from the mathematical sum, and no error is reported. -/
theorem catpng_height_overflow (codec : Codec) (pngs : List (List Nat))
    (level : Nat) (ihdr : IhdrData) (idat : PngChunk)
    (rs : List (IhdrData × List Nat))
    (h : catpng codec pngs level = .ok (some (ihdr, idat)))
    (hrs : decodePngs codec pngs = .ok rs)
    (hbound : ∀ r ∈ rs, (Prod.fst r).height < 4294967296)
    (hov : 4294967296 ≤ ((rs.map fun r => (Prod.fst r).height).sum)) :
    ihdr.height = ((rs.map fun r => (Prod.fst r).height).sum) % 4294967296 ∧
    ihdr.height ≠ ((rs.map fun r => (Prod.fst r).height).sum) := by
  cases pngs with
  | nil =>
    exact absurd h (by simp [catpng, catpngFold, catpngFoldFrom, Except.map])
  | cons p ps =>
    unfold catpng at h
    cases hf : catpngFold codec (p :: ps) with
    | error e => rw [hf] at h; exact absurd h (by simp [Except.map])
    | ok acc =>
      obtain ⟨st, buf⟩ := acc
      rw [hf] at h
      dsimp only [Except.map] at h
      cases st with
      | none => exact absurd h (by simp)
      | some i0 =>
        obtain ⟨hi, _⟩ := Prod.mk.inj (Option.some.inj (Except.ok.inj h))
        obtain ⟨ib, bs, rs2, hdec, hwid, hbuf, hst⟩ :=
          catpngFold_ok_shape codec p ps (some i0) buf hf
        subst hi
        rw [hrs] at hdec
        have hrs2 : rs = (ib, bs) :: rs2 := Except.ok.inj hdec
        subst hrs2
        rcases hst with ⟨hps, hnil, hst⟩ | hst
        · subst hnil
          have : ib.height < 4294967296 := hbound (ib, bs) (by simp)
          simp only [List.map_cons, List.map_nil, List.sum_cons,
            List.sum_nil, Nat.add_zero] at hov
          omega
        · rw [Option.some.inj hst]
          refine ⟨by simp [IhdrData.addHeight], ?_⟩
          simp only [IhdrData.addHeight, List.map_cons, List.sum_cons]
            at hov ⊢
          omega

/-- C10 witness: two inputs of height `2 ^ 31` each succeed with output
height `0 = 2 ^ 32 % 2 ^ 32`, differing from the mathematical sum. -/
theorem catpng_height_overflow_witness :
    catpng idCodec
        [mkPngRaw (IhdrData.mk 7 2147483648 0 0 0 0 0) [8],
         mkPngRaw (IhdrData.mk 7 2147483648 0 0 0 0 0) [9]] 0 =
      .ok (some (IhdrData.mk 7 0 0 0 0 0 0, PngChunk.mk .idat [8, 9])) ∧
    ((IhdrData.mk 7 0 0 0 0 0 0).height =
      ([(IhdrData.mk 7 2147483648 0 0 0 0 0, ([8] : List Nat)),
         (IhdrData.mk 7 2147483648 0 0 0 0 0, [9])].map
          fun r => (Prod.fst r).height).sum % 4294967296 ∧
    (IhdrData.mk 7 0 0 0 0 0 0).height ≠
      ([(IhdrData.mk 7 2147483648 0 0 0 0 0, ([8] : List Nat)),
        (IhdrData.mk 7 2147483648 0 0 0 0 0, [9])].map
         fun r => (Prod.fst r).height).sum) :=
  ⟨by decide,
    catpng_height_overflow idCodec
      [mkPngRaw (IhdrData.mk 7 2147483648 0 0 0 0 0) [8],
       mkPngRaw (IhdrData.mk 7 2147483648 0 0 0 0 0) [9]] 0
      (IhdrData.mk 7 0 0 0 0 0 0) (PngChunk.mk .idat [8, 9])
      [(IhdrData.mk 7 2147483648 0 0 0 0 0, [8]),
       (IhdrData.mk 7 2147483648 0 0 0 0 0, [9])]
      (by decide) (by decide) (by decide) (by decide)⟩

/-- C4: once a seeding input has been processed, a later input whose IHDR
width differs from the seed's width aborts the whole run with
`UnequalWidth`; and an input whose first 8 bytes are not the PNG magic
aborts it with `InvalidSignature`; in both cases `catpng` returns an error
and no `(IhdrData, PngChunk)` output. -/
theorem catpng_reject (codec : Codec) (level : Nat) :
    (∀ (p0 : List Nat) (pre : List (List Nat)) (bad : List Nat)
        (post : List (List Nat)) (i0 : IhdrData) (b0 : List Nat)
        (s : IhdrData) (buf : List Nat) (c1 : PngChunk) (r1 : List Nat)
        (i : IhdrData),
      decodePng codec p0 = .ok (i0, b0) →
      catpngFold codec (p0 :: pre) = .ok (some s, buf) →
      bad.take 8 = pngSignature →
      pngChunkNew (bad.drop 8) = .ok (c1, r1) →
      ihdrFromChunk c1 = .ok i →
      i.width ≠ i0.width →
      catpng codec ((p0 :: pre) ++ bad :: post) level =
        .error .unequalWidth) ∧
    (∀ (pre : List (List Nat)) (bad : List Nat) (post : List (List Nat))
        (acc : Option IhdrData × List Nat),
      catpngFold codec pre = .ok acc →
      bad.take 8 ≠ pngSignature →
      catpng codec (pre ++ bad :: post) level =
        .error .invalidSignature) := by
  constructor
  · intro p0 pre bad post i0 b0 s buf c1 r1 i hdec hFold hsig h1 h2 hw
    obtain ⟨i0', b0', hdec', hfold'⟩ :=
      catpngFold_cons_ok codec p0 pre (some s) buf hFold
    obtain ⟨hi0, hb0⟩ := Prod.mk.inj (Except.ok.inj (hdec'.symm.trans hdec))
    rw [hi0, hb0] at hfold'
    have hsw : s.width = i0.width := by
      obtain ⟨rs, _, _, _, hst⟩ :=
        catpngFoldFrom_some_ok codec pre i0 b0 (some s) buf hfold'
      rcases hst with ⟨_, _, hst⟩ | hst
      · rw [Option.some.inj hst]
      · rw [Option.some.inj hst]; rfl
    unfold catpngFold at hFold
    have happ := catpngFoldFrom_append_ok codec (p0 :: pre) (none, [])
      (some s, buf) (bad :: post) hFold
    have hstep : inflatePng codec (some s, buf) bad =
        .error .unequalWidth :=
      inflatePng_width_mismatch codec s buf bad c1 r1 i hsig h1 h2
        (fun hc => hw (hc.trans hsw))
    have hrest : catpngFoldFrom codec (some s, buf) (bad :: post) =
        .error .unequalWidth := by
      unfold catpngFoldFrom; rw [hstep]
    unfold catpng catpngFold
    rw [happ, hrest]
    rfl
  · intro pre bad post acc hFold hsig
    unfold catpngFold at hFold
    have happ := catpngFoldFrom_append_ok codec pre (none, []) acc
      (bad :: post) hFold
    have hstep : inflatePng codec acc bad = .error .invalidSignature :=
      inflatePng_bad_sig codec acc bad hsig
    have hrest : catpngFoldFrom codec acc (bad :: post) =
        .error .invalidSignature := by
      unfold catpngFoldFrom; rw [hstep]
    unfold catpng catpngFold
    rw [happ, hrest]
    rfl

/-- C4 witness: a second input of width 6 after a seed of width 5 is
rejected with `UnequalWidth`; an input starting with 8 zero bytes is
rejected with `InvalidSignature`. -/
theorem catpng_reject_witness :
    catpng idCodec
        [mkPngRaw (IhdrData.mk 5 7 0 0 0 0 0) [1],
         mkPngRaw (IhdrData.mk 6 7 0 0 0 0 0) [2]] 0 =
      .error .unequalWidth ∧
    catpng idCodec
        [mkPngRaw (IhdrData.mk 5 7 0 0 0 0 0) [1],
         [0, 0, 0, 0, 0, 0, 0, 0]] 0 =
      .error .invalidSignature :=
  ⟨(catpng_reject idCodec 0).1
      (mkPngRaw (IhdrData.mk 5 7 0 0 0 0 0) [1]) []
      (mkPngRaw (IhdrData.mk 6 7 0 0 0 0 0) [2]) []
      (IhdrData.mk 5 7 0 0 0 0 0) [1] (IhdrData.mk 5 7 0 0 0 0 0) [1]
      (ihdrToChunk (IhdrData.mk 6 7 0 0 0 0 0))
      (chunkRaw (PngChunk.mk .idat [2])) (IhdrData.mk 6 7 0 0 0 0 0)
      (by decide) (by decide) (by decide) (by decide) (by decide) (by decide),
    (catpng_reject idCodec 0).2
      [mkPngRaw (IhdrData.mk 5 7 0 0 0 0 0) [1]]
      [0, 0, 0, 0, 0, 0, 0, 0] []
      (some (IhdrData.mk 5 7 0 0 0 0 0), [1])
      (by decide) (by decide)⟩

/-- Decoding a stream freshly produced by `write_png` recovers the IHDR
record and the inflated IDAT payload. -/
theorem decodePng_write_png (codec : Codec) (v : IhdrData) (c : PngChunk)
    (bytes : List Nat) (hv : v.WF) (hkind : c.kind = PngChunkKind.idat)
    (hlen : c.data.length < 4294967296)
    (hinf : codec.inflate c.data = some bytes) :
    decodePng codec (write_png v c) = .ok (v, bytes) := by
  simp only [decodePng, write_png]
  rw [List.append_assoc, List.append_assoc]
  rw [show List.take 8 (pngSignature ++ (pngChunkWrite (ihdrToChunk v) ++
        (pngChunkWrite c ++ pngChunkWrite pngIend))) = pngSignature from
      List.take_left pngSignature _,
    show List.drop 8 (pngSignature ++ (pngChunkWrite (ihdrToChunk v) ++
        (pngChunkWrite c ++ pngChunkWrite pngIend))) =
        pngChunkWrite (ihdrToChunk v) ++
          (pngChunkWrite c ++ pngChunkWrite pngIend) from
      List.drop_left pngSignature _]
  rw [if_pos rfl]
  rw [pngChunkNew_write (ihdrToChunk v) _
    (by rw [ihdrToChunk_data_length]; omega)
    (fun _ => ihdrToChunk_data_length v)]
  dsimp only
  rw [ihdrFromChunk_ihdrToChunk v hv]
  dsimp only
  rw [pngChunkNew_write c _ hlen
    (fun hk => absurd (hkind.symm.trans hk) (by simp))]
  dsimp only
  rw [hinf]

set_option maxRecDepth 16384 in
/-- C3 counterexample: a valid single-input run that does not reproduce
its input byte stream: the input (whose chunk CRC fields are zeroed and
which carries no IEND chunk) is accepted, but re-emission writes correct
CRCs and appends an IEND chunk, so the output differs from the input. -/
theorem catpng_single_not_identity :
    catpng idCodec [mkPngRaw (IhdrData.mk 5 7 0 0 0 0 0) [1]] 0 =
      .ok (some (IhdrData.mk 5 7 0 0 0 0 0, PngChunk.mk .idat [1])) ∧
    write_png (IhdrData.mk 5 7 0 0 0 0 0) (PngChunk.mk .idat [1]) ≠
      mkPngRaw (IhdrData.mk 5 7 0 0 0 0 0) [1] :=
  ⟨by decide, by decide⟩

/-- C3 (amended): the round trip holds for inputs that are themselves
`write_png` outputs: feeding the serialization of `(v, IDAT(compress d
level))` as the single input at the same level returns exactly `(v,
IDAT(compress d level))`, so re-emitting with `write_png` reproduces the
input byte stream — given the codec round-trip contract, in-range IHDR
fields, and a u32-sized compressed payload. -/
theorem catpngFoldFrom_singleton (codec : Codec)
    (acc : Option IhdrData × List Nat) (png : List Nat) :
    catpngFoldFrom codec acc [png] =
      match inflatePng codec acc png with
      | .error e => .error e
      | .ok acc2 => .ok acc2 := by
  unfold catpngFoldFrom
  cases inflatePng codec acc png with
  | error e => rfl
  | ok acc2 => rfl

theorem catpng_single_roundtrip (codec : Codec) (v : IhdrData)
    (d : List Nat) (level : Nat) (hRT : RoundTrip codec) (hv : v.WF)
    (hlen : (codec.compress d level).length < 4294967296) :
    catpng codec
        [write_png v (PngChunk.mk .idat (codec.compress d level))] level =
      .ok (some (v, PngChunk.mk .idat (codec.compress d level))) := by
  have hdec : decodePng codec
      (write_png v (PngChunk.mk .idat (codec.compress d level))) =
      .ok (v, d) :=
    decodePng_write_png codec v (PngChunk.mk .idat (codec.compress d level))
      d hv rfl hlen (hRT d level)
  have hstep : inflatePng codec (none, [])
      (write_png v (PngChunk.mk .idat (codec.compress d level))) =
      .ok (some v, [] ++ d) := by
    rw [inflatePng_none_eq, hdec]; rfl
  simp only [catpng, catpngFold]
  rw [catpngFoldFrom_singleton, hstep]
  dsimp only [Except.map, Option.map]
  rw [List.nil_append]

set_option maxRecDepth 16384 in
/-- C3 witness: concrete single-input round trip through the identity
codec. -/
theorem catpng_single_roundtrip_witness :
    RoundTrip idCodec ∧
    (IhdrData.mk 5 7 0 0 0 0 0).WF ∧
    catpng idCodec
        [write_png (IhdrData.mk 5 7 0 0 0 0 0)
          (PngChunk.mk .idat (idCodec.compress [9, 9] 0))] 0 =
      .ok (some (IhdrData.mk 5 7 0 0 0 0 0,
        PngChunk.mk .idat (idCodec.compress [9, 9] 0))) :=
  ⟨idCodec_roundTrip, by decide,
    catpng_single_roundtrip idCodec (IhdrData.mk 5 7 0 0 0 0 0) [9, 9] 0
      idCodec_roundTrip (by decide) (by decide)⟩
